import Mathlib

/-!
Verification of the generator, decorator, context-manager, signal and
utility code of the `alx-backend-python` repository, shallowly embedded
in Lean 4.

The database table `user_data` is modelled as a Lean list of rows, in
the fixed order in which the MySQL cursor returns them (the claims all
assume the table does not change during iteration).  A row produced by
a dictionary cursor is modelled as an association list from column
names to string values; the empty Python dict `{}` is the empty list.
-/

/-- A row as returned by a MySQL dictionary cursor: an association list
from column names to values.  The empty dict `{}` is `[]`. -/
abbrev Row := List (String × String)

/-- The empty Python dictionary `{}` yielded by `stream_users` on error. -/
def emptyDict : Row := []

/-- Model of `0-stream_users.py`, `stream_users`: connects, runs the full-table
query `SELECT user_id, name, email, age FROM user_data` and yields the
rows one at a time.  The connection/query outcome is the argument:
`.ok rows` when the query succeeds and the cursor yields `rows`,
`.error e` when `mysql.connector` raises error `e`.  The `except`
branch prints the error and yields the single empty dict, so the
result is always `.ok`: the exception is never propagated. -/
def stream_users (fetch : Except Nat (List Row)) : Except Nat (List Row) :=
  match fetch with
  | .ok rows => .ok rows
  | .error _ => .ok [emptyDict]

/-- Model of `2-lazy_paginate.py`, `paginate_users`: one page of
`SELECT * FROM user_data LIMIT page_size OFFSET offset`. -/
def paginate_users (page_size offset : Nat) (db : List Row) : List Row :=
  (db.drop offset).take page_size

/-- The paging loop shared by `stream_users_in_batches`
(`1-batch_processing.py`) and `lazy_paginate` (`2-lazy_paginate.py`):
starting at `offset`, fetch `LIMIT page_size OFFSET offset` pages,
stop at the first empty page, otherwise yield the page and advance the
offset by `page_size`. -/
def pagesFrom (page_size : Nat) (db : List Row) (offset : Nat) : List (List Row) :=
  if h : paginate_users page_size offset db = [] then
    []
  else
    paginate_users page_size offset db :: pagesFrom page_size db (offset + page_size)
termination_by db.length - offset
decreasing_by
  have hlen : (paginate_users page_size offset db).length ≠ 0 := by
    intro hl
    exact h (List.length_eq_zero.mp hl)
  unfold paginate_users at hlen
  rw [List.length_take, List.length_drop] at hlen
  omega

/-- Model of `1-batch_processing.py`, `stream_users_in_batches`: the paging loop
started at offset 0. -/
def stream_users_in_batches (batch_size : Nat) (db : List Row) : List (List Row) :=
  pagesFrom batch_size db 0

/-- Model of `2-lazy_paginate.py`, `lazy_paginate`: the paging loop started at
offset 0 (each page is fetched through `paginate_users`). -/
def lazy_paginate (page_size : Nat) (db : List Row) : List (List Row) :=
  pagesFrom page_size db 0

theorem join_pagesFrom (page_size : Nat) (db : List Row) (offset : Nat) :
    0 < page_size → (pagesFrom page_size db offset).flatten = db.drop offset := by
  refine pagesFrom.induct page_size db
    (fun k => 0 < page_size → (pagesFrom page_size db k).flatten = db.drop k) ?_ ?_ offset
  · intro k h hps
    rw [pagesFrom, dif_pos h]
    have hlen : (paginate_users page_size k db).length = 0 := by
      rw [h]; rfl
    unfold paginate_users at hlen
    rw [List.length_take, List.length_drop] at hlen
    have hle : db.length ≤ k := by omega
    rw [List.drop_eq_nil_of_le hle]
    rfl
  · intro k h ih hps
    rw [pagesFrom, dif_neg h]
    have hjoin : ((paginate_users page_size k db ::
          pagesFrom page_size db (k + page_size)).flatten)
        = paginate_users page_size k db ++
          (pagesFrom page_size db (k + page_size)).flatten := rfl
    rw [hjoin, ih hps]
    unfold paginate_users
    rw [← List.drop_drop, List.take_append_drop]

theorem pagesFrom_get (page_size : Nat) (db : List Row) :
    ∀ (i offset : Nat), i < (pagesFrom page_size db offset).length →
      (pagesFrom page_size db offset)[i]? =
        some (paginate_users page_size (offset + i * page_size) db) ∧
      paginate_users page_size (offset + i * page_size) db ≠ [] := by
  intro i
  induction i with
  | zero =>
    intro offset h
    by_cases hp : paginate_users page_size offset db = []
    · rw [pagesFrom, dif_pos hp] at h
      simp at h
    · rw [pagesFrom, dif_neg hp]
      simpa using hp
  | succ i ih =>
    intro offset h
    by_cases hp : paginate_users page_size offset db = []
    · rw [pagesFrom, dif_pos hp] at h
      simp at h
    · rw [pagesFrom, dif_neg hp] at h ⊢
      simp only [List.length_cons] at h
      have h2 : i < (pagesFrom page_size db (offset + page_size)).length := by omega
      have hrec := ih (offset + page_size) h2
      have harith : offset + page_size + i * page_size = offset + (i + 1) * page_size := by
        ring
      rw [harith] at hrec
      simpa using hrec

theorem pagesFrom_stops (page_size : Nat) (db : List Row) (offset : Nat) :
    paginate_users page_size
      (offset + (pagesFrom page_size db offset).length * page_size) db = [] := by
  refine pagesFrom.induct page_size db
    (fun k => paginate_users page_size
      (k + (pagesFrom page_size db k).length * page_size) db = []) ?_ ?_ offset
  · intro k h
    rw [pagesFrom, dif_pos h]
    simpa using h
  · intro k h ih
    rw [pagesFrom, dif_neg h]
    simp only [List.length_cons]
    have harith : k + ((pagesFrom page_size db (k + page_size)).length + 1) * page_size
        = (k + page_size) + (pagesFrom page_size db (k + page_size)).length * page_size := by
      ring
    rw [harith]
    exact ih

/-- C1. For every `batch_size > 0` (and fixed table contents `db`),
the concatenation of the batches yielded by
`stream_users_in_batches batch_size` equals, row for row and in order,
the rows yielded by the single full-table query of `stream_users`;
and `lazy_paginate page_size` yields exactly the successive non-empty
pages returned by `paginate_users` at offsets `0, page_size,
2*page_size, ...`, terminating at the first empty page. -/
theorem c1_batching_and_lazy_pagination_refine_full_query
    (batch_size page_size : Nat) (db : List Row)
    (hb : 0 < batch_size) (hp : 0 < page_size) :
    stream_users (Except.ok db)
        = Except.ok ((stream_users_in_batches batch_size db).flatten)
    ∧ (∀ i, i < (lazy_paginate page_size db).length →
        (lazy_paginate page_size db)[i]? =
          some (paginate_users page_size (i * page_size) db) ∧
        paginate_users page_size (i * page_size) db ≠ [])
    ∧ paginate_users page_size
        ((lazy_paginate page_size db).length * page_size) db = [] := by
  refine ⟨?_, ?_, ?_⟩
  · unfold stream_users stream_users_in_batches
    rw [join_pagesFrom batch_size db 0 hb]
    rfl
  · intro i hi
    unfold lazy_paginate at hi ⊢
    have hg := pagesFrom_get page_size db i 0 hi
    simpa using hg
  · unfold lazy_paginate
    have hs := pagesFrom_stops page_size db 0
    simpa using hs

/-- A three-row table used to instantiate `c1` at a concrete input. -/
def c1db : List Row :=
  [[("user_id", "1")], [("user_id", "2")], [("user_id", "3")]]

theorem c1_batching_and_lazy_pagination_witness :
    0 < 2 ∧
    (stream_users (Except.ok c1db)
        = Except.ok ((stream_users_in_batches 2 c1db).flatten)
    ∧ (∀ i, i < (lazy_paginate 2 c1db).length →
        (lazy_paginate 2 c1db)[i]? = some (paginate_users 2 (i * 2) c1db) ∧
        paginate_users 2 (i * 2) c1db ≠ [])
    ∧ paginate_users 2 ((lazy_paginate 2 c1db).length * 2) c1db = []) :=
  ⟨by decide,
   c1_batching_and_lazy_pagination_refine_full_query 2 2 c1db (by decide) (by decide)⟩

/-- C8. If connecting or querying raises a `mysql.connector.Error`,
`stream_users` does not propagate the exception: it yields the single
empty dict `{}`; on every input the generator run completes without an
exception. -/
theorem c8_stream_users_swallows_mysql_errors :
    (∀ e, stream_users (Except.error e) = Except.ok [emptyDict])
    ∧ (∀ fetch, ∃ rows, stream_users fetch = Except.ok rows)
    ∧ stream_users (Except.error 0) = Except.ok [emptyDict] := by
  refine ⟨fun e => rfl, ?_, rfl⟩
  intro fetch
  cases fetch with
  | ok rows => exact ⟨rows, rfl⟩
  | error e => exact ⟨[emptyDict], rfl⟩

/-!
## Django signals (`messaging_app/chats/signals.py`)

Users are identified by their `user_id`, messages by their primary
key.  A conversation is its list of participant ids (a Django
many-to-many relation, hence without duplicates).
-/

/-- A row of the `Notification` model as created by the signals. -/
structure Notification where
  user : Nat
  message : Nat
  notification_type : String
  content : String
deriving DecidableEq

/-- A row of the `MessageHistory` model as created by `log_message_edit`. -/
structure MessageHistory where
  message : Nat
  old_content : String
  edited_by : Nat
deriving DecidableEq

/-- Model of `signals.py`, `create_notification_on_new_message`: the `post_save`
receiver for `Message`.  When `created` is true it creates one
`new_message` notification for every conversation participant whose
`user_id` differs from the sender's; otherwise it creates none.
Returns the list of created notifications. -/
def create_notification_on_new_message
    (participants : List Nat) (senderId messageId : Nat)
    (senderName messageBody : String) (created : Bool) : List Notification :=
  if created then
    (participants.filter (fun u => u != senderId)).map
      (fun u =>
        { user := u, message := messageId,
          notification_type := "new_message",
          content := "New message from " ++ senderName ++ ": "
            ++ messageBody.take 50 ++ "..." })
  else []

/-- The effects of one `pre_save` run of `log_message_edit`: the
`MessageHistory` rows created, the notifications created, and the
value of the instance's `edited` flag after the signal. -/
structure EditEffects where
  history : List MessageHistory
  notifications : List Notification
  edited : Bool
deriving DecidableEq

/-- Model of `signals.py`, `log_message_edit`: the `pre_save` receiver for
`Message`.  `stored` is `Message.objects.get(pk=...)` as a partial map
from primary keys to the stored `message_body` (`none` models
`Message.DoesNotExist`); `pk` is `instance.pk` (`none` when unset), and
`edited` is the instance's `edited` flag before the save. -/
def log_message_edit (stored : Nat → Option String) (pk : Option Nat)
    (message_body : String) (senderId : Nat) (senderName : String)
    (participants : List Nat) (edited : Bool) : EditEffects :=
  match pk with
  | none => { history := [], notifications := [], edited := edited }
  | some k =>
    match stored k with
    | none => { history := [], notifications := [], edited := edited }
    | some old_body =>
      if old_body ≠ message_body then
        { history := [{ message := k, old_content := old_body, edited_by := senderId }],
          notifications := (participants.filter (fun u => u != senderId)).map
            (fun u =>
              { user := u, message := k,
                notification_type := "message_edited",
                content := senderName ++ " edited their message" }),
          edited := true }
      else
        { history := [], notifications := [], edited := edited }

theorem length_filter_map_user (l : List Nat) (g : Nat → Notification)
    (hg : ∀ v, (g v).user = v) (u : Nat) :
    ((l.map g).filter (fun n => n.user == u)).length
      = (l.filter (fun v => v == u)).length := by
  induction l with
  | nil => rfl
  | cons a t ih =>
    by_cases hau : a = u
    · subst hau
      simp [List.filter_cons, hg, ih]
    · simp [List.filter_cons, hg, hau, ih]

theorem length_filter_beq_one (l : List Nat) (u : Nat)
    (hnd : l.Nodup) (hm : u ∈ l) :
    (l.filter (fun v => v == u)).length = 1 := by
  induction l with
  | nil => cases hm
  | cons a t ih =>
    rw [List.nodup_cons] at hnd
    rcases List.mem_cons.mp hm with h | h
    · subst h
      have ht : t.filter (fun v => v == u) = [] := by
        apply List.filter_eq_nil_iff.mpr
        intro b hb
        simp only [beq_iff_eq]
        intro hba
        exact hnd.1 (hba ▸ hb)
      simp [List.filter_cons, ht]
    · have hau : a ≠ u := fun he => hnd.1 (he ▸ h)
      simp [List.filter_cons, hau, ih hnd.2 h]

/-- C2. When a `Message` is newly created (`created = true`),
exactly one `new_message` notification is created for each participant
of the conversation other than the sender and none for the sender;
saving an existing message (`created = false`) creates none. -/
theorem c2_new_message_notifications
    (participants : List Nat) (senderId messageId : Nat)
    (senderName messageBody : String)
    (hnd : participants.Nodup) :
    (∀ u, u ∈ participants → u ≠ senderId →
      ((create_notification_on_new_message participants senderId messageId
          senderName messageBody true).filter
        (fun n => n.user == u)).length = 1)
    ∧ (∀ n, n ∈ create_notification_on_new_message participants senderId messageId
          senderName messageBody true →
        n.user ≠ senderId ∧ n.notification_type = "new_message")
    ∧ create_notification_on_new_message participants senderId messageId
        senderName messageBody false = [] := by
  refine ⟨?_, ?_, rfl⟩
  · intro u hu hne
    unfold create_notification_on_new_message
    rw [if_pos rfl]
    rw [length_filter_map_user _ _ (fun v => rfl) u]
    apply length_filter_beq_one
    · exact List.Nodup.filter _ hnd
    · apply List.mem_filter.mpr
      exact ⟨hu, by simpa using hne⟩
  · intro n hn
    unfold create_notification_on_new_message at hn
    rw [if_pos rfl] at hn
    rcases List.mem_map.mp hn with ⟨u, hu, hgu⟩
    have hu2 := List.mem_filter.mp hu
    constructor
    · rw [← hgu]
      simpa using hu2.2
    · rw [← hgu]

/-- Concrete participants list used to instantiate the signal theorems. -/
def chatParticipants : List Nat := [1, 2, 3]

theorem c2_new_message_notifications_witness :
    chatParticipants.Nodup ∧
    ((∀ u, u ∈ chatParticipants → u ≠ 1 →
      ((create_notification_on_new_message chatParticipants 1 5
          "Alice" "hello" true).filter
        (fun n => n.user == u)).length = 1)
    ∧ (∀ n, n ∈ create_notification_on_new_message chatParticipants 1 5
          "Alice" "hello" true →
        n.user ≠ 1 ∧ n.notification_type = "new_message")
    ∧ create_notification_on_new_message chatParticipants 1 5
        "Alice" "hello" false = []) :=
  ⟨by decide, c2_new_message_notifications chatParticipants 1 5 "Alice" "hello" (by decide)⟩

/-- C3. Saving an existing message (`pk` present in the database)
with a changed `message_body` creates exactly one `MessageHistory`
record holding the old body, sets the `edited` flag, and creates one
`message_edited` notification per participant other than the sender;
with an unchanged body it creates nothing and leaves the flag alone. -/
theorem c3_message_edit_history_and_notifications
    (stored : Nat → Option String) (k : Nat) (old_body new_body : String)
    (senderId : Nat) (senderName : String) (participants : List Nat)
    (edited0 : Bool)
    (hst : stored k = some old_body) (hnd : participants.Nodup) :
    (old_body ≠ new_body →
      (log_message_edit stored (some k) new_body senderId senderName
          participants edited0).history
        = [{ message := k, old_content := old_body, edited_by := senderId }]
      ∧ (log_message_edit stored (some k) new_body senderId senderName
          participants edited0).edited = true
      ∧ (∀ u, u ∈ participants → u ≠ senderId →
          ((log_message_edit stored (some k) new_body senderId senderName
              participants edited0).notifications.filter
            (fun n => n.user == u)).length = 1)
      ∧ (∀ n, n ∈ (log_message_edit stored (some k) new_body senderId senderName
            participants edited0).notifications →
          n.user ≠ senderId ∧ n.notification_type = "message_edited"))
    ∧ (old_body = new_body →
        log_message_edit stored (some k) new_body senderId senderName
            participants edited0
          = { history := [], notifications := [], edited := edited0 }) := by
  constructor
  · intro hne
    simp only [log_message_edit, hst]
    rw [if_pos hne]
    refine ⟨rfl, rfl, ?_, ?_⟩
    · intro u hu hneu
      rw [length_filter_map_user _ _ (fun v => rfl) u]
      apply length_filter_beq_one
      · exact List.Nodup.filter _ hnd
      · apply List.mem_filter.mpr
        exact ⟨hu, by simpa using hneu⟩
    · intro n hn
      rcases List.mem_map.mp hn with ⟨u, hu, hgu⟩
      have hu2 := List.mem_filter.mp hu
      constructor
      · rw [← hgu]
        simpa using hu2.2
      · rw [← hgu]
  · intro heq
    simp only [log_message_edit, hst]
    rw [if_neg (by simpa using heq)]

/-- Concrete stored-message lookup used to instantiate `c3`. -/
def storedMessages : Nat → Option String :=
  fun k => if k = 7 then some "old text" else none

theorem c3_message_edit_history_witness :
    storedMessages 7 = some "old text" ∧ chatParticipants.Nodup ∧
    (("old text" ≠ "new text" →
      (log_message_edit storedMessages (some 7) "new text" 1 "Alice"
          chatParticipants false).history
        = [{ message := 7, old_content := "old text", edited_by := 1 }]
      ∧ (log_message_edit storedMessages (some 7) "new text" 1 "Alice"
          chatParticipants false).edited = true
      ∧ (∀ u, u ∈ chatParticipants → u ≠ 1 →
          ((log_message_edit storedMessages (some 7) "new text" 1 "Alice"
              chatParticipants false).notifications.filter
            (fun n => n.user == u)).length = 1)
      ∧ (∀ n, n ∈ (log_message_edit storedMessages (some 7) "new text" 1 "Alice"
            chatParticipants false).notifications →
          n.user ≠ 1 ∧ n.notification_type = "message_edited"))
    ∧ ("old text" = "new text" →
        log_message_edit storedMessages (some 7) "new text" 1 "Alice"
            chatParticipants false
          = { history := [], notifications := [], edited := false })) :=
  ⟨by decide, by decide,
   c3_message_edit_history_and_notifications storedMessages 7 "old text" "new text"
     1 "Alice" chatParticipants false (by decide) (by decide)⟩

/-!
## The `transactional` decorator (`python-decorators-0x01/2-transactional.py`)

A SQLite connection is modelled by its last committed database state
and the current (possibly uncommitted) working state; `conn.commit()`
promotes the working state, `conn.rollback()` discards it.  The wrapped
function reads the connection and produces either a value (normal
return) or an exception, together with the connection state at that
point.
-/

/-- A SQLite connection: last committed state and current working state. -/
structure TxConn (σ : Type) where
  committed : σ
  current : σ
deriving DecidableEq

/-- Model of `conn.commit()`. -/
def TxConn.commit {σ : Type} (c : TxConn σ) : TxConn σ :=
  { c with committed := c.current }

/-- Model of `conn.rollback()`. -/
def TxConn.rollback {σ : Type} (c : TxConn σ) : TxConn σ :=
  { c with current := c.committed }

/-- Model of `2-transactional.py`, `transactional`: run the wrapped function;
on normal return commit and pass the result through, on an exception
roll back and re-raise the same exception. -/
def transactional {σ β ε : Type} (f : TxConn σ → Except ε β × TxConn σ)
    (conn : TxConn σ) : Except ε β × TxConn σ :=
  match f conn with
  | (.ok r, conn1) => (.ok r, conn1.commit)
  | (.error e, conn1) => (.error e, conn1.rollback)

/-- C4. If the wrapped function returns normally, its result is
returned unchanged and the transaction is committed; if it raises, the
transaction is rolled back — which restores the state as of the last
commit, so for a function that does not itself commit and a connection
with no uncommitted work the database is left unchanged — and the same
exception is re-raised. -/
theorem c4_transactional_commit_on_success_rollback_on_error
    {σ β ε : Type} (f : TxConn σ → Except ε β × TxConn σ) (conn : TxConn σ) :
    (∀ r conn1, f conn = (Except.ok r, conn1) →
      transactional f conn = (Except.ok r, conn1.commit))
    ∧ (∀ e conn1, f conn = (Except.error e, conn1) →
        (conn1.committed = conn.committed → conn.current = conn.committed →
          transactional f conn = (Except.error e, conn))) := by
  constructor
  · intro r conn1 hf
    unfold transactional
    rw [hf]
  · intro e conn1 hf hpres hclean
    unfold transactional
    rw [hf]
    show (Except.error e,
      ({ committed := conn1.committed, current := conn1.committed } : TxConn σ))
        = (Except.error e, conn)
    rw [hpres]
    cases conn with
    | mk committed current =>
      simp only at hclean
      rw [hclean]

/-- A wrapped function used to instantiate `c4`: it changes the
working state to 1 and then raises exception 9. -/
def failingUpdate : TxConn Nat → Except Nat Nat × TxConn Nat :=
  fun conn => (Except.error 9, { conn with current := 1 })

theorem c4_transactional_witness :
    failingUpdate { committed := 0, current := 0 }
        = (Except.error 9, { committed := 0, current := 1 }) ∧
    transactional failingUpdate { committed := 0, current := 0 }
        = (Except.error 9, { committed := 0, current := 0 }) :=
  ⟨rfl,
   (c4_transactional_commit_on_success_rollback_on_error failingUpdate
     { committed := 0, current := 0 }).2 9 { committed := 0, current := 1 }
     rfl rfl rfl⟩

/-!
## Concurrent read-only queries (`python-context-async-perations-0x02/3-concurrent.py`)

The `users` table is a list of rows with `id`, `name`, `email` and
`age` columns.  Each query function returns the fetched rows together
with the database state after the query, so read-only-ness is the
statement that the second component equals the input.
-/

/-- A row of the `users` SQLite table. -/
structure UsersRow where
  id : Nat
  name : String
  email : String
  age : Int
deriving DecidableEq

/-- Model of `3-concurrent.py`, `async_fetch_users`:
`SELECT * FROM users` — returns every row and leaves the table as it was. -/
def async_fetch_users (db : List UsersRow) : List UsersRow × List UsersRow :=
  (db, db)

/-- Model of `3-concurrent.py`, `async_fetch_older_users`:
`SELECT * FROM users WHERE age > 40`. -/
def async_fetch_older_users (db : List UsersRow) : List UsersRow × List UsersRow :=
  (db.filter (fun u => 40 < u.age), db)

/-- Model of `3-concurrent.py`, `fetch_concurrently`: `asyncio.gather` of the two
independent read queries, returning the pair
`(all_users, older_users)` and the final table state. -/
def fetch_concurrently (db : List UsersRow) :
    (List UsersRow × List UsersRow) × List UsersRow :=
  let r1 := async_fetch_users db
  let r2 := async_fetch_older_users r1.2
  ((r1.1, r2.1), r2.2)

/-- C5. Both queries are read-only (the table after each equals the
table before), and `fetch_concurrently` returns `(all_users,
older_users)` where `all_users` is every row of `users`, in order, and
`older_users` is exactly the subset of rows whose age exceeds 40. -/
theorem c5_fetch_concurrently_read_only_and_correct (db : List UsersRow) :
    (async_fetch_users db).2 = db
    ∧ (async_fetch_older_users db).2 = db
    ∧ (fetch_concurrently db).2 = db
    ∧ (fetch_concurrently db).1.1 = db
    ∧ (∀ r, r ∈ (fetch_concurrently db).1.2 ↔ r ∈ db ∧ 40 < r.age) := by
  refine ⟨rfl, rfl, rfl, rfl, ?_⟩
  intro r
  show r ∈ db.filter (fun u => 40 < u.age) ↔ r ∈ db ∧ 40 < r.age
  rw [List.mem_filter]
  simp

/-!
## The `ExecuteQuery` context manager (`python-context-async-perations-0x02/1-execute.py`)

The connection/cursor state records which `(query, params)` pairs were
executed, whether cursor and connection are open, and how many commits
happened.  `runQuery` is the database engine: the rows `fetchall`
returns for a query and parameters.
-/

/-- Observable state of the `ExecuteQuery` connection and cursor. -/
structure EQState where
  execs : List (String × List String)
  cursorOpen : Bool
  connOpen : Bool
  commits : Nat
deriving DecidableEq

/-- Model of `ExecuteQuery.__enter__`: open the connection and cursor, execute
the query once with the given parameters, fetch all rows and return
them, alongside the resulting connection state. -/
def ExecuteQuery_enter (runQuery : String → List String → List (List String))
    (query : String) (params : List String) : List (List String) × EQState :=
  (runQuery query params,
   { execs := [(query, params)], cursorOpen := true, connOpen := true, commits := 0 })

/-- Model of `ExecuteQuery.__exit__`: close the cursor, commit only when no
exception occurred in the body, and close the connection. -/
def ExecuteQuery_exit (st : EQState) (excOccurred : Bool) : EQState :=
  { st with cursorOpen := false,
            commits := if excOccurred then st.commits else st.commits + 1,
            connOpen := false }

/-- The `with ExecuteQuery(query, params) as results:` statement: run
`__enter__`, feed the results to the body, then run `__exit__` with
the information whether the body raised; the body's outcome (value or
exception) is propagated unchanged. -/
def withExecuteQuery {β : Type} (runQuery : String → List String → List (List String))
    (query : String) (params : List String)
    (body : List (List String) → Except Nat β) : Except Nat β × EQState :=
  let entered := ExecuteQuery_enter runQuery query params
  match body entered.1 with
  | .ok b => (.ok b, ExecuteQuery_exit entered.2 false)
  | .error e => (.error e, ExecuteQuery_exit entered.2 true)

/-- C6. Entering `ExecuteQuery(query, params)` executes the query
exactly once with the given parameters and returns the full list of
fetched rows; on exit the cursor and the connection are always closed,
and the connection is committed if and only if the body of the `with`
statement finished without an exception; the body's outcome is
propagated unchanged. -/
theorem c6_execute_query_context_manager {β : Type}
    (runQuery : String → List String → List (List String))
    (query : String) (params : List String)
    (body : List (List String) → Except Nat β) :
    (ExecuteQuery_enter runQuery query params).1 = runQuery query params
    ∧ (withExecuteQuery runQuery query params body).2.execs = [(query, params)]
    ∧ (withExecuteQuery runQuery query params body).2.cursorOpen = false
    ∧ (withExecuteQuery runQuery query params body).2.connOpen = false
    ∧ ((withExecuteQuery runQuery query params body).2.commits = 1
        ↔ ∃ b, body (runQuery query params) = Except.ok b)
    ∧ (withExecuteQuery runQuery query params body).1
        = body (runQuery query params) := by
  cases hb : body (runQuery query params) with
  | ok b =>
    refine ⟨rfl, ?_, ?_, ?_, ?_, ?_⟩ <;>
      simp [withExecuteQuery, ExecuteQuery_enter, ExecuteQuery_exit, hb]
  | error e =>
    refine ⟨rfl, ?_, ?_, ?_, ?_, ?_⟩ <;>
      simp [withExecuteQuery, ExecuteQuery_enter, ExecuteQuery_exit, hb]

/-!
## The `retry_on_failure` decorator (`python-decorators-0x01/3-retry_on_failure.py`)

The wrapped function is modelled by the outcome of each of its
invocations: invocation number `i` (counting from 0) either returns a
value, raises a `sqlite3.Error`, or raises some other exception.
Error payloads are numbered.
-/

/-- The outcome of one invocation of the wrapped function. -/
inductive Outcome (α : Type) where
  | ok (v : α)
  | sqliteError (e : Nat)
  | otherError (e : Nat)
deriving DecidableEq

/-- The observable result of the retry wrapper: the value returned or
the exception propagated, together with how many times the wrapped
function was invoked. -/
inductive RetryResult (α : Type) where
  | ok (v : α) (calls : Nat)
  | sqliteError (e : Nat) (calls : Nat)
  | otherError (e : Nat) (calls : Nat)
deriving DecidableEq

/-- Number of invocations of the wrapped function recorded in a
`RetryResult`. -/
def RetryResult.calls {α : Type} : RetryResult α → Nat
  | .ok _ c => c
  | .sqliteError _ c => c
  | .otherError _ c => c

/-- The `for attempt in range(retries + 1)` loop of `retry_on_failure`:
invoke the function; return its value on success; on a `sqlite3.Error`
retry while attempts remain, else re-raise the last such error; any
other exception propagates immediately. -/
def retry_go {α : Type} (f : Nat → Outcome α) : Nat → Nat → RetryResult α
  | attempt, remaining =>
    match f attempt with
    | .ok v => .ok v (attempt + 1)
    | .otherError e => .otherError e (attempt + 1)
    | .sqliteError e =>
      match remaining with
      | 0 => .sqliteError e (attempt + 1)
      | r + 1 => retry_go f (attempt + 1) r

/-- Model of `3-retry_on_failure.py`, `retry_on_failure(retries, delay)` applied
to a function `f`: the loop starting at attempt 0 with `retries`
remaining retries (the `delay` only sleeps and has no observable
effect on the result). -/
def retry_on_failure {α : Type} (retries : Nat) (f : Nat → Outcome α) : RetryResult α :=
  retry_go f 0 retries

theorem retry_go_calls_le {α : Type} (f : Nat → Outcome α) :
    ∀ (remaining attempt : Nat),
      (retry_go f attempt remaining).calls ≤ attempt + remaining + 1 := by
  intro remaining
  induction remaining with
  | zero =>
    intro attempt
    unfold retry_go
    cases f attempt <;> simp [RetryResult.calls]
  | succ r ih =>
    intro attempt
    unfold retry_go
    cases f attempt with
    | ok v => simp [RetryResult.calls]
    | otherError e => simp [RetryResult.calls]
    | sqliteError e =>
      have := ih (attempt + 1)
      simp only []
      omega

theorem retry_go_first_ok {α : Type} (f : Nat → Outcome α) :
    ∀ (remaining attempt i : Nat) (v : α),
      attempt ≤ i → i ≤ attempt + remaining → f i = .ok v →
      (∀ j, attempt ≤ j → j < i → ∃ e, f j = .sqliteError e) →
      retry_go f attempt remaining = .ok v (i + 1) := by
  intro remaining
  induction remaining with
  | zero =>
    intro attempt i v hlo hhi hok hprev
    have hia : i = attempt := by omega
    subst hia
    unfold retry_go
    rw [hok]
  | succ r ih =>
    intro attempt i v hlo hhi hok hprev
    by_cases hia : i = attempt
    · subst hia
      unfold retry_go
      rw [hok]
    · have hlt : attempt < i := by omega
      rcases hprev attempt (le_refl attempt) hlt with ⟨e, he⟩
      unfold retry_go
      rw [he]
      exact ih (attempt + 1) i v (by omega) (by omega) hok
        (fun j hj1 hj2 => hprev j (by omega) hj2)

theorem retry_go_all_sqlite {α : Type} (f : Nat → Outcome α) :
    ∀ (remaining attempt : Nat),
      (∀ i, attempt ≤ i → i ≤ attempt + remaining → ∃ e, f i = .sqliteError e) →
      ∃ e, f (attempt + remaining) = .sqliteError e ∧
        retry_go f attempt remaining = .sqliteError e (attempt + remaining + 1) := by
  intro remaining
  induction remaining with
  | zero =>
    intro attempt hall
    rcases hall attempt (le_refl attempt) (by omega) with ⟨e, he⟩
    refine ⟨e, by simpa using he, ?_⟩
    unfold retry_go
    rw [he]
  | succ r ih =>
    intro attempt hall
    rcases hall attempt (le_refl attempt) (by omega) with ⟨e, he⟩
    rcases ih (attempt + 1) (fun i h1 h2 => hall i (by omega) (by omega)) with
      ⟨e2, he2, hrec⟩
    refine ⟨e2, ?_, ?_⟩
    · have : attempt + (r + 1) = attempt + 1 + r := by omega
      rw [this]
      exact he2
    · unfold retry_go
      rw [he]
      have : attempt + (r + 1) + 1 = attempt + 1 + r + 1 := by omega
      rw [this]
      exact hrec

theorem retry_go_other_error {α : Type} (f : Nat → Outcome α) :
    ∀ (remaining attempt i e : Nat),
      attempt ≤ i → i ≤ attempt + remaining → f i = .otherError e →
      (∀ j, attempt ≤ j → j < i → ∃ e2, f j = .sqliteError e2) →
      retry_go f attempt remaining = .otherError e (i + 1) := by
  intro remaining
  induction remaining with
  | zero =>
    intro attempt i e hlo hhi herr hprev
    have hia : i = attempt := by omega
    subst hia
    unfold retry_go
    rw [herr]
  | succ r ih =>
    intro attempt i e hlo hhi herr hprev
    by_cases hia : i = attempt
    · subst hia
      unfold retry_go
      rw [herr]
    · have hlt : attempt < i := by omega
      rcases hprev attempt (le_refl attempt) hlt with ⟨e2, he2⟩
      unfold retry_go
      rw [he2]
      exact ih (attempt + 1) i e (by omega) (by omega) herr
        (fun j hj1 hj2 => hprev j (by omega) hj2)

/-- C7. For every `retries ≥ 0`, the wrapper invokes the wrapped
function at most `retries + 1` times; it returns the result of the
first invocation that does not raise; if every invocation raises a
`sqlite3.Error` it re-raises the last one after `retries + 1`
invocations; and an exception that is not a `sqlite3.Error` propagates
immediately, with no further attempts. -/
theorem c7_retry_on_failure_retry_semantics {α : Type}
    (retries : Nat) (f : Nat → Outcome α) :
    (retry_on_failure retries f).calls ≤ retries + 1
    ∧ (∀ i v, i ≤ retries → f i = .ok v →
        (∀ j, j < i → ∃ e, f j = .sqliteError e) →
        retry_on_failure retries f = .ok v (i + 1))
    ∧ ((∀ i, i ≤ retries → ∃ e, f i = .sqliteError e) →
        ∃ e, f retries = .sqliteError e ∧
          retry_on_failure retries f = .sqliteError e (retries + 1))
    ∧ (∀ i e, i ≤ retries → f i = .otherError e →
        (∀ j, j < i → ∃ e2, f j = .sqliteError e2) →
        retry_on_failure retries f = .otherError e (i + 1)) := by
  refine ⟨?_, ?_, ?_, ?_⟩
  · have := retry_go_calls_le f retries 0
    unfold retry_on_failure
    omega
  · intro i v hi hok hprev
    exact retry_go_first_ok f retries 0 i v (Nat.zero_le i) (by omega) hok
      (fun j _ hj => hprev j hj)
  · intro hall
    have := retry_go_all_sqlite f retries 0 (fun i _ h2 => hall i (by omega))
    simpa using this
  · intro i e hi herr hprev
    exact retry_go_other_error f retries 0 i e (Nat.zero_le i) (by omega) herr
      (fun j _ hj => hprev j hj)

/-- A wrapped function used to instantiate `c7`: the first invocation
raises `sqlite3.Error` number 7, the second returns 42. -/
def flakyQuery : Nat → Outcome Nat :=
  fun i => if i = 0 then Outcome.sqliteError 7 else Outcome.ok 42

theorem c7_retry_on_failure_witness :
    (1 : Nat) ≤ 3 ∧ flakyQuery 1 = Outcome.ok 42 ∧
    retry_on_failure 3 flakyQuery = RetryResult.ok 42 2 :=
  ⟨by decide, by decide,
   (c7_retry_on_failure_retry_semantics 3 flakyQuery).2.1 1 42 (by decide) (by decide)
     (fun j hj => ⟨7, by
       have hj0 : j = 0 := by omega
       rw [hj0]
       rfl⟩)⟩

/-!
## Average age aggregation (`python-generators-0x00/4-stream_ages.py`)

`stream_user_ages` yields the (already `int`-converted) ages of the
`user_data` rows; the aggregation loop of `calculate_average_age` is
the fold accumulating `total_age` and `count`.
-/

/-- Model of `4-stream_ages.py`, `calculate_average_age`: fold the streamed ages
into `total_age` and `count`, then report `total_age / count` when
`count > 0` and `0` otherwise (Python true division, modelled over ℚ). -/
def calculate_average_age (ages : List Int) : Rat :=
  let acc := ages.foldl (fun (p : Int × Nat) age => (p.1 + age, p.2 + 1)) (0, 0)
  if 0 < acc.2 then (acc.1 : Rat) / (acc.2 : Rat) else 0

theorem age_fold_eq_sum_length (ages : List Int) :
    ∀ (a : Int) (c : Nat),
      ages.foldl (fun (p : Int × Nat) age => (p.1 + age, p.2 + 1)) (a, c)
        = (a + ages.sum, c + ages.length) := by
  induction ages with
  | nil =>
    intro a c
    simp
  | cons x t ih =>
    intro a c
    rw [List.foldl_cons, ih (a + x) (c + 1)]
    simp [List.sum_cons]
    constructor
    · ring
    · omega

/-- C9. `calculate_average_age` never divides by zero: with no rows
the `count > 0` guard reports average `0`, and otherwise the reported
value is the sum of the integer ages divided by their count. -/
theorem c9_calculate_average_age_division_guard :
    calculate_average_age [] = 0
    ∧ (∀ ages : List Int, 0 < ages.length →
        calculate_average_age ages = (ages.sum : Rat) / (ages.length : Rat)) := by
  constructor
  · rfl
  · intro ages hlen
    unfold calculate_average_age
    rw [age_fold_eq_sum_length ages 0 0]
    simp only [Int.zero_add, Nat.zero_add, zero_add]
    rw [if_pos hlen]

theorem c9_calculate_average_age_witness :
    0 < ([10, 20] : List Int).length ∧
    calculate_average_age [10, 20]
      = ((([10, 20] : List Int).sum : Rat) / ((([10, 20] : List Int).length : Nat) : Rat)) :=
  ⟨by decide, (c9_calculate_average_age_division_guard).2 [10, 20] (by decide)⟩

/-!
## `access_nested_map` (`0x03-Unittests_and_integration_tests/utils.py`)

Nested Python data: a value is either a mapping (an association list
from string keys to values, preserving insertion order) or a
non-mapping leaf.  `nested_map[key]` on a mapping is the association
lookup, raising `KeyError(key)` when the key is absent; on a
non-mapping the function itself raises `KeyError(key)`.
-/

/-- A nested Python value: a `Mapping` or a non-mapping leaf. -/
inductive PyVal where
  | map (entries : List (String × PyVal))
  | val (n : Nat)

/-- Python dict indexing `m[key]` on the entries of a mapping. -/
def lookupKey : List (String × PyVal) → String → Option PyVal
  | [], _ => none
  | (k, v) :: rest, key => if k = key then some v else lookupKey rest key

/-- Model of `utils.py`, `access_nested_map`: walk the keys of `path`; on a
non-mapping raise `KeyError(key)`; index mappings with the next key,
the dict raising `KeyError(key)` when the key is missing; return the
reached value once the path is exhausted. -/
def access_nested_map : PyVal → List String → Except String PyVal
  | m, [] => .ok m
  | .val _, key :: _ => .error key
  | .map es, key :: rest =>
    match lookupKey es key with
    | none => .error key
    | some v => access_nested_map v rest

/-- The claim's reference reading of `access_nested_map`: the value
reached from `nested_map` by indexing successively with the keys of
`path`, `none` when some intermediate value is not a mapping or lacks
the next key. -/
def indexPathSpec : PyVal → List String → Option PyVal
  | m, [] => some m
  | .val _, _ :: _ => none
  | .map es, key :: rest =>
    match lookupKey es key with
    | none => none
    | some v => indexPathSpec v rest

theorem access_nested_map_ok_iff (p : List String) :
    ∀ m u : PyVal,
      access_nested_map m p = Except.ok u ↔ indexPathSpec m p = some u := by
  induction p with
  | nil =>
    intro m u
    simp [access_nested_map, indexPathSpec]
  | cons key rest ih =>
    intro m u
    cases m with
    | val n => simp [access_nested_map, indexPathSpec]
    | map es =>
      cases hk : lookupKey es key with
      | none => simp [access_nested_map, indexPathSpec, hk]
      | some v => simp [access_nested_map, indexPathSpec, hk, ih]

theorem access_nested_map_error_iff (p : List String) :
    ∀ m : PyVal,
      (∃ k, access_nested_map m p = Except.error k) ↔ indexPathSpec m p = none := by
  induction p with
  | nil =>
    intro m
    simp [access_nested_map, indexPathSpec]
  | cons key rest ih =>
    intro m
    cases m with
    | val n => simp [access_nested_map, indexPathSpec]
    | map es =>
      cases hk : lookupKey es key with
      | none => simp [access_nested_map, indexPathSpec, hk]
      | some v => simp [access_nested_map, indexPathSpec, hk, ih]

/-- C10. `access_nested_map` returns the value reached by indexing
`nested_map` successively with the keys of `path`; it raises `KeyError`
exactly when an intermediate value is not a mapping or lacks the next
key; and for the empty path it returns `nested_map` itself, even when
`nested_map` is not a mapping. -/
theorem c10_access_nested_map_traversal :
    (∀ m : PyVal, access_nested_map m [] = Except.ok m)
    ∧ (∀ n : Nat, access_nested_map (PyVal.val n) [] = Except.ok (PyVal.val n))
    ∧ (∀ (m u : PyVal) (p : List String),
        access_nested_map m p = Except.ok u ↔ indexPathSpec m p = some u)
    ∧ (∀ (m : PyVal) (p : List String),
        (∃ k, access_nested_map m p = Except.error k) ↔ indexPathSpec m p = none) :=
  ⟨fun m => by simp [access_nested_map],
   fun n => by simp [access_nested_map],
   fun m u p => access_nested_map_ok_iff p m u,
   fun m p => access_nested_map_error_iff p m⟩
